import Mathlib

/-!
Verification of the md3-colors color library (HCT / CAM16 / sRGB plumbing).

The Go source is floating-point; the shallow embedding below interprets
float64 arithmetic over the real numbers.  Decimal literals are the exact
rationals they denote.  Integer-valued quantities (ARGB words, sRGB
components) are embedded as `Nat`/`Int` with the masking the source performs.
-/

noncomputable section

/-! ### utils/math (math.utils.go) -/

/-- Signum returns the sign of the given number (`mathUtils.Signum`). -/
def Signum (num : ℝ) : ℝ :=
  if num < 0 then -1 else if num = 0 then 0 else 1

/-- Lerp performs linear interpolation between two values (`mathUtils.Lerp`). -/
def Lerp (start stop amount : ℝ) : ℝ :=
  (1 - amount) * start + amount * stop

/-- ClampInt clamps an integer between two integers (`mathUtils.ClampInt`). -/
def ClampInt (min max input : ℤ) : ℤ :=
  if input < min then min else if input > max then max else input

/-- ClampDouble clamps a real value between two bounds (`mathUtils.ClampDouble`). -/
def ClampDouble (min max input : ℝ) : ℝ :=
  if input < min then min else if input > max then max else input

/-- Truncation toward zero, the semantics of Go's float-to-int conversion and
of the quotient inside `math.Mod`. -/
def goTrunc (r : ℝ) : ℤ :=
  if 0 ≤ r then ⌊r⌋ else ⌈r⌉

/-- Semantics of Go's `math.Mod(x, y)`: the remainder `x - y*Trunc(x/y)`,
which takes the sign of `x`. -/
def goMod (x y : ℝ) : ℝ :=
  x - y * (goTrunc (x / y) : ℝ)

/-- Semantics of `int(math.Round(x))` in the Go source: `math.Round` rounds
half away from zero to an integral float, and the `int` conversion truncates
that integral value, so the composite is rounding half away from zero. -/
def goRoundToInt (x : ℝ) : ℤ :=
  if 0 ≤ x then ⌊x + 1 / 2⌋ else ⌈x - 1 / 2⌉

/-- SanitizeDegreesDouble sanitizes a degree measure as a floating-point
number (`mathUtils.SanitizeDegreesDouble`). -/
def SanitizeDegreesDouble (degrees : ℝ) : ℝ :=
  let d := goMod degrees 360
  if d < 0 then d + 360 else d

/-- MatrixMultiply multiplies a 1x3 row vector with a 3x3 matrix
(`mathUtils.MatrixMultiply`). -/
def MatrixMultiply (row : Fin 3 → ℝ) (matrix : Fin 3 → Fin 3 → ℝ) : Fin 3 → ℝ :=
  ![row 0 * matrix 0 0 + row 1 * matrix 0 1 + row 2 * matrix 0 2,
    row 0 * matrix 1 0 + row 1 * matrix 1 1 + row 2 * matrix 1 2,
    row 0 * matrix 2 0 + row 1 * matrix 2 1 + row 2 * matrix 2 2]

/-! ### utils/color (color utilities, src/unnamed/part_000) -/

/-- The sRGB-to-XYZ matrix constant of the color utilities. -/
def srgbToXyz : Fin 3 → Fin 3 → ℝ :=
  ![![0.41233895, 0.35762064, 0.18051042],
    ![0.2126, 0.7152, 0.0722],
    ![0.01932141, 0.11916382, 0.95034478]]

/-- The XYZ-to-sRGB matrix constant of the color utilities. -/
def xyzToSrgb : Fin 3 → Fin 3 → ℝ :=
  ![![3.2413774792388685, -1.5376652402851851, -0.49885366846268053],
    ![-0.9691452513005321, 1.8758853451067872, 0.04156585616912061],
    ![0.05562093689691305, -0.20395524564742123, 1.0571799111220335]]

/-- The D65 white point constant. -/
def whitePointD65 : Fin 3 → ℝ := ![95.047, 100.0, 108.883]

/-- ArgbFromRgb converts a color from RGB components to ARGB format.
Go's `(red & 255)` on a (possibly negative) int is the low byte in two's
complement, i.e. `red % 256` with Euclidean remainder. -/
def ArgbFromRgb (red green blue : ℤ) : ℕ :=
  ((255 : ℕ) <<< 24) ||| ((red % 256).toNat <<< 16) |||
    ((green % 256).toNat <<< 8) ||| (blue % 256).toNat

/-- AlphaFromArgb returns the alpha component of a color in ARGB format. -/
def AlphaFromArgb (argb : ℕ) : ℕ :=
  (argb >>> 24) &&& 255

/-- RedFromArgb returns the red component of a color in ARGB format. -/
def RedFromArgb (argb : ℕ) : ℕ :=
  (argb >>> 16) &&& 255

/-- GreenFromArgb returns the green component of a color in ARGB format. -/
def GreenFromArgb (argb : ℕ) : ℕ :=
  (argb >>> 8) &&& 255

/-- BlueFromArgb returns the blue component of a color in ARGB format. -/
def BlueFromArgb (argb : ℕ) : ℕ :=
  argb &&& 255

/-- IsOpaque returns whether a color in ARGB format is opaque. -/
def IsOpaque (argb : ℕ) : Bool :=
  255 ≤ AlphaFromArgb argb

/-- Linearized linearizes an RGB component to the 0-100 linear scale. -/
def Linearized (rgbComponent : ℕ) : ℝ :=
  let normalized : ℝ := (rgbComponent : ℝ) / 255
  if normalized ≤ 0.040449936 then
    normalized / 12.92 * 100
  else
    ((normalized + 0.055) / 1.055) ^ (2.4 : ℝ) * 100

/-- Delinearized delinearizes a 0-100 linear RGB component back to an
integer sRGB component, rounding and clamping to 0..255. -/
def Delinearized (rgbComponent : ℝ) : ℤ :=
  let normalized := rgbComponent / 100
  let delinearized :=
    if normalized ≤ 0.0031308 then normalized * 12.92
    else 1.055 * normalized ^ ((1 : ℝ) / 2.4) - 0.055
  ClampInt 0 255 (goRoundToInt (delinearized * 255))

/-- ArgbFromXyz converts a color from XYZ components to ARGB format. -/
def ArgbFromXyz (x y z : ℝ) : ℕ :=
  let linearR := xyzToSrgb 0 0 * x + xyzToSrgb 0 1 * y + xyzToSrgb 0 2 * z
  let linearG := xyzToSrgb 1 0 * x + xyzToSrgb 1 1 * y + xyzToSrgb 1 2 * z
  let linearB := xyzToSrgb 2 0 * x + xyzToSrgb 2 1 * y + xyzToSrgb 2 2 * z
  ArgbFromRgb (Delinearized linearR) (Delinearized linearG) (Delinearized linearB)

/-- XyzFromArgb converts a color from ARGB format to XYZ components. -/
def XyzFromArgb (argb : ℕ) : Fin 3 → ℝ :=
  let r := Linearized (RedFromArgb argb)
  let g := Linearized (GreenFromArgb argb)
  let b := Linearized (BlueFromArgb argb)
  MatrixMultiply ![r, g, b] srgbToXyz

/-- ArgbFromLstar converts an L* value to a grayscale ARGB representation. -/
def ArgbFromLstar (lstar : ℝ) : ℕ :=
  let fy := (lstar + 16) / 116
  let fz := fy
  let fx := fy
  let kappa : ℝ := 24389 / 27
  let epsilon : ℝ := 216 / 24389
  let y := if lstar > 8 then fy * fy * fy else lstar / kappa
  let x := if fy * fy * fy > epsilon then fx * fx * fx else lstar / kappa
  let z := if fy * fy * fy > epsilon then fz * fz * fz else lstar / kappa
  ArgbFromXyz (x * whitePointD65 0) (y * whitePointD65 1) (z * whitePointD65 2)

/-- LstarFromArgb computes the L* value of a color in ARGB representation. -/
def LstarFromArgb (argb : ℕ) : ℝ :=
  let xyz := XyzFromArgb argb
  let y := xyz 1 / 100
  let e : ℝ := 216 / 24389
  if y ≤ e then 24389 / 27 * y
  else 116 * y ^ ((1 : ℝ) / 3) - 16

/-- YFromLstar converts an L* value to a Y value. -/
def YFromLstar (lstar : ℝ) : ℝ :=
  let ke : ℝ := 8
  if lstar > ke then ((lstar + 16) / 116) ^ (3 : ℝ) * 100
  else lstar / (24389 / 27) * 100

/-- The labF helper of the L*a*b* transform. -/
def labF (t : ℝ) : ℝ :=
  let e : ℝ := 216 / 24389
  let kappa : ℝ := 24389 / 27
  if t > e then t ^ ((1 : ℝ) / 3)
  else (kappa * t + 16) / 116

/-- The labInvf helper, inverse of `labF`. -/
def labInvf (ft : ℝ) : ℝ :=
  let e : ℝ := 216 / 24389
  let kappa : ℝ := 24389 / 27
  let ft3 := ft * ft * ft
  if ft3 > e then ft3
  else (116 * ft - 16) / kappa

/-- LstarFromY converts a Y value to an L* value. -/
def LstarFromY (y : ℝ) : ℝ :=
  labF (y / 100) * 116 - 16

/-! ### hct package: further Go math primitives -/

/-- Semantics of Go's `math.Atan2(y, x)`: the angle of the point `(x, y)`,
in `(-π, π]`. -/
def goAtan2 (y x : ℝ) : ℝ :=
  Complex.arg ⟨x, y⟩

/-- ToDegrees converts a radian measure to a degree measure
(`mathUtils.ToDegrees`). -/
def ToDegrees (radians : ℝ) : ℝ :=
  radians * 180 / Real.pi

/-- ToRadians converts a degree measure to a radian measure
(`mathUtils.ToRadians`). -/
def ToRadians (degrees : ℝ) : ℝ :=
  degrees * Real.pi / 180

/-- Semantics of Go's `math.Hypot(p, q)`. -/
def goHypot (p q : ℝ) : ℝ :=
  Real.sqrt (p * p + q * q)

/-- Semantics of Go's `math.Log1p(x)`. -/
def goLog1p (x : ℝ) : ℝ :=
  Real.log (1 + x)

/-- Semantics of Go's `math.Cbrt(x)`: the real cube root, odd on negatives. -/
def goCbrt (x : ℝ) : ℝ :=
  if 0 ≤ x then x ^ ((1 : ℝ) / 3) else -((-x) ^ ((1 : ℝ) / 3))

/-! ### hct package: viewing conditions (src/unnamed/part_002) -/

/-- ViewingConditions caches intermediate values of the CAM16 conversion that
depend only on the viewing environment.  Fields in source order:
Aw, Nbb, Ncb, C, Nc, N, RgbD, Fl, FlRoot, Z. -/
structure ViewingConditions where
  Aw : ℝ
  Nbb : ℝ
  Ncb : ℝ
  C : ℝ
  Nc : ℝ
  N : ℝ
  RgbD : Fin 3 → ℝ
  Fl : ℝ
  FlRoot : ℝ
  Z : ℝ

/-- XYZToCam16RGB transforms XYZ coordinates to cone/RGB responses in CAM16. -/
def XYZToCam16RGB : Fin 3 → Fin 3 → ℝ :=
  ![![0.401288, 0.650173, -0.051461],
    ![-0.250268, 1.204414, 0.045854],
    ![-0.002079, 0.048952, 0.953127]]

/-- CAM16RGBToXYZ transforms cone/RGB responses in CAM16 to XYZ coordinates. -/
def CAM16RGBToXYZ : Fin 3 → Fin 3 → ℝ :=
  ![![1.8620678, -1.0112547, 0.14918678],
    ![0.38752654, 0.62144744, -0.00897398],
    ![-0.01584150, -0.03412294, 1.0499644]]

/-- MakeViewingConditions creates a ViewingConditions from a physically
relevant set of parameters.  The Go getters (`GetAw`, `GetFl`, ...) are plain
field accessors and are embedded as structure projections. -/
def MakeViewingConditions (whitePoint : Fin 3 → ℝ)
    (adaptingLuminance backgroundLstar surround : ℝ)
    (discountingIlluminant : Bool) : ViewingConditions :=
  let backgroundLstar' := max 0.1 backgroundLstar
  let matrix := XYZToCam16RGB
  let xyz := whitePoint
  let rW := xyz 0 * matrix 0 0 + xyz 1 * matrix 0 1 + xyz 2 * matrix 0 2
  let gW := xyz 0 * matrix 1 0 + xyz 1 * matrix 1 1 + xyz 2 * matrix 1 2
  let bW := xyz 0 * matrix 2 0 + xyz 1 * matrix 2 1 + xyz 2 * matrix 2 2
  let f := 0.8 + surround / 10
  let c := if f ≥ 0.9 then Lerp 0.59 0.69 ((f - 0.9) * 10)
    else Lerp 0.525 0.59 ((f - 0.8) * 10)
  let d := if discountingIlluminant then 1
    else min (max 0 (f * (1 - (1 / 3.6) * Real.exp ((-adaptingLuminance - 42) / 92)))) 1
  let nc := f
  let rgbD : Fin 3 → ℝ :=
    ![d * (100 / rW) + 1 - d, d * (100 / gW) + 1 - d, d * (100 / bW) + 1 - d]
  let k := 1 / (5 * adaptingLuminance + 1)
  let k4 := k * k * k * k
  let k4F := 1 - k4
  let fl := k4 * adaptingLuminance + 0.1 * k4F * k4F * goCbrt (5 * adaptingLuminance)
  let n := YFromLstar backgroundLstar' / whitePoint 1
  let z := 1.48 + Real.sqrt n
  let nbb := 0.725 / n ^ (0.2 : ℝ)
  let ncb := nbb
  let rgbAFactors : Fin 3 → ℝ :=
    ![(fl * rgbD 0 * rW / 100) ^ (0.42 : ℝ),
      (fl * rgbD 1 * gW / 100) ^ (0.42 : ℝ),
      (fl * rgbD 2 * bW / 100) ^ (0.42 : ℝ)]
  let rgbA : Fin 3 → ℝ :=
    ![400 * rgbAFactors 0 / (rgbAFactors 0 + 27.13),
      400 * rgbAFactors 1 / (rgbAFactors 1 + 27.13),
      400 * rgbAFactors 2 / (rgbAFactors 2 + 27.13)]
  let aw := (2 * rgbA 0 + rgbA 1 + 0.05 * rgbA 2) * nbb
  ⟨aw, nbb, ncb, c, nc, n, rgbD, fl, fl ^ (0.25 : ℝ), z⟩

/-- DefaultViewingConditionsWithBackgroundLstar: sRGB-like viewing conditions
with a custom background L*. -/
def DefaultViewingConditionsWithBackgroundLstar (backgroundLstar : ℝ) : ViewingConditions :=
  MakeViewingConditions whitePointD65 (200 / Real.pi * YFromLstar 50 / 100)
    backgroundLstar 2.0 false

/-- DefaultViewingConditions represents the default sRGB-like viewing
conditions. -/
def DefaultViewingConditions : ViewingConditions :=
  DefaultViewingConditionsWithBackgroundLstar 50

/-! ### hct package: CAM16 (src/hct/hct.go) -/

/-- Cam16 bundles the nine CAM16 coordinates.  Fields in source order:
hue, chroma, j, q, m, s, jstar, astar, bstar.  The Go getters are plain
field accessors and are embedded as structure projections. -/
structure Cam16 where
  hue : ℝ
  chroma : ℝ
  j : ℝ
  q : ℝ
  m : ℝ
  s : ℝ
  jstar : ℝ
  astar : ℝ
  bstar : ℝ

/-- Cam16FromXyzInViewingConditions creates a CAM16 color from XYZ
coordinates in defined viewing conditions. -/
def Cam16FromXyzInViewingConditions (x y z : ℝ)
    (viewingConditions : ViewingConditions) : Cam16 :=
  let matrix := XYZToCam16RGB
  let rT := x * matrix 0 0 + y * matrix 0 1 + z * matrix 0 2
  let gT := x * matrix 1 0 + y * matrix 1 1 + z * matrix 1 2
  let bT := x * matrix 2 0 + y * matrix 2 1 + z * matrix 2 2
  let rD := viewingConditions.RgbD 0 * rT
  let gD := viewingConditions.RgbD 1 * gT
  let bD := viewingConditions.RgbD 2 * bT
  let rAF := (viewingConditions.Fl * |rD| / 100) ^ (0.42 : ℝ)
  let gAF := (viewingConditions.Fl * |gD| / 100) ^ (0.42 : ℝ)
  let bAF := (viewingConditions.Fl * |bD| / 100) ^ (0.42 : ℝ)
  let rA := Signum rD * 400 * rAF / (rAF + 27.13)
  let gA := Signum gD * 400 * gAF / (gAF + 27.13)
  let bA := Signum bD * 400 * bAF / (bAF + 27.13)
  let a := (11 * rA - 12 * gA + bA) / 11
  let b := (rA + gA - 2 * bA) / 9
  let u := (20 * rA + 20 * gA + 21 * bA) / 20
  let p2 := (40 * rA + 20 * gA + bA) / 20
  let atan2v := goAtan2 b a
  let atanDegrees := ToDegrees atan2v
  let hue := if atanDegrees < 0 then atanDegrees + 360
    else if atanDegrees ≥ 360 then atanDegrees - 360 else atanDegrees
  let hueRadians := ToRadians hue
  let ac := p2 * viewingConditions.Nbb
  let j := 100 * (ac / viewingConditions.Aw) ^ (viewingConditions.C * viewingConditions.Z)
  let q := 4 / viewingConditions.C * Real.sqrt (j / 100) *
    (viewingConditions.Aw + 4) * viewingConditions.FlRoot
  let huePrime := if hue < 20.14 then hue + 360 else hue
  let eHue := 0.25 * (Real.cos (ToRadians huePrime + 2) + 3.8)
  let p1 := 50000 / 13 * eHue * viewingConditions.Nc * viewingConditions.Ncb
  let t := p1 * goHypot a b / (u + 0.305)
  let alpha := (1.64 - (0.29 : ℝ) ^ viewingConditions.N) ^ (0.73 : ℝ) * t ^ (0.9 : ℝ)
  let c := alpha * Real.sqrt (j / 100)
  let m := c * viewingConditions.FlRoot
  let s := 50 * Real.sqrt (alpha * viewingConditions.C / (viewingConditions.Aw + 4))
  let jstar := (1 + 100 * 0.007) * j / (1 + 0.007 * j)
  let mstar := 1 / 0.0228 * goLog1p (0.0228 * m)
  let astar := mstar * Real.cos hueRadians
  let bstar := mstar * Real.sin hueRadians
  ⟨hue, c, j, q, m, s, jstar, astar, bstar⟩

/-- Cam16FromIntInViewingConditions creates a CAM16 color from an ARGB color
in defined viewing conditions. -/
def Cam16FromIntInViewingConditions (argb : ℕ)
    (viewingConditions : ViewingConditions) : Cam16 :=
  let red := (argb &&& 0x00ff0000) >>> 16
  let green := (argb &&& 0x0000ff00) >>> 8
  let blue := argb &&& 0x000000ff
  let redL := Linearized red
  let greenL := Linearized green
  let blueL := Linearized blue
  let x := 0.41233895 * redL + 0.35762064 * greenL + 0.18051042 * blueL
  let y := 0.2126 * redL + 0.7152 * greenL + 0.0722 * blueL
  let z := 0.01932141 * redL + 0.11916382 * greenL + 0.95034478 * blueL
  Cam16FromXyzInViewingConditions x y z viewingConditions

/-- Cam16FromInt converts an ARGB color to CAM16 under default viewing
conditions. -/
def Cam16FromInt (argb : ℕ) : Cam16 :=
  Cam16FromIntInViewingConditions argb DefaultViewingConditions

/-- cam16FromJchInViewingConditions constructs a CAM16 color from CAM16
lightness, chroma and hue in the given viewing conditions. -/
def cam16FromJchInViewingConditions (j c h : ℝ)
    (viewingConditions : ViewingConditions) : Cam16 :=
  let q := 4 / viewingConditions.C * Real.sqrt (j / 100) *
    (viewingConditions.Aw + 4) * Real.sqrt viewingConditions.Fl
  let m := c * Real.sqrt viewingConditions.Fl
  let alpha := c / Real.sqrt (j / 100)
  let s := 50 * Real.sqrt (alpha * viewingConditions.C / (viewingConditions.Aw + 4))
  let hueRadians := Real.pi * h / 180
  let jstar := (1 + 100 * 0.007) * j / (1 + 0.007 * j)
  let mstar := 1 / 0.0228 * goLog1p (0.0228 * m)
  let astar := mstar * Real.cos hueRadians
  let bstar := mstar * Real.sin hueRadians
  ⟨h, c, j, q, m, s, jstar, astar, bstar⟩

/-- Cam16FromJch constructs a CAM16 color from CAM16 lightness, chroma and
hue under default viewing conditions. -/
def Cam16FromJch (j c h : ℝ) : Cam16 :=
  cam16FromJchInViewingConditions j c h DefaultViewingConditions

/-- XyzInViewingConditions (the CAM16 inverse): XYZ coordinates of a Cam16
color under the given viewing conditions. -/
def XyzInViewingConditions (c : Cam16) (viewingConditions : ViewingConditions) : Fin 3 → ℝ :=
  let alpha := if c.chroma ≠ 0 ∧ c.j ≠ 0 then c.chroma / Real.sqrt (c.j / 100) else 0
  let t := (alpha / (1.64 - (0.29 : ℝ) ^ viewingConditions.N) ^ (0.73 : ℝ)) ^ ((1 : ℝ) / 0.9)
  let hRad := Real.pi * c.hue / 180
  let eHue := 0.25 * (Real.cos (hRad + 2) + 3.8)
  let ac := viewingConditions.Aw *
    (c.j / 100) ^ (1 / (viewingConditions.C * viewingConditions.Z))
  let p1 := eHue * (50000 / 13) * viewingConditions.Nc * viewingConditions.Ncb
  let p2 := ac / viewingConditions.Nbb
  let hSin := Real.sin hRad
  let hCos := Real.cos hRad
  let gamma := 23 * (p2 + 0.305) * t / (23 * p1 + 11 * t * hCos + 108 * t * hSin)
  let a := gamma * hCos
  let b := gamma * hSin
  let rA := (460 * p2 + 451 * a + 288 * b) / 1403
  let gA := (460 * p2 - 891 * a - 261 * b) / 1403
  let bA := (460 * p2 - 220 * a - 6300 * b) / 1403
  let rCBase := max 0 (27.13 * |rA| / (400 - |rA|))
  let rC := Signum rA * (100 / viewingConditions.Fl) * rCBase ^ ((1 : ℝ) / 0.42)
  let gCBase := max 0 (27.13 * |gA| / (400 - |gA|))
  let gC := Signum gA * (100 / viewingConditions.Fl) * gCBase ^ ((1 : ℝ) / 0.42)
  let bCBase := max 0 (27.13 * |bA| / (400 - |bA|))
  let bC := Signum bA * (100 / viewingConditions.Fl) * bCBase ^ ((1 : ℝ) / 0.42)
  let rF := rC / viewingConditions.RgbD 0
  let gF := gC / viewingConditions.RgbD 1
  let bF := bC / viewingConditions.RgbD 2
  let matrix := CAM16RGBToXYZ
  ![rF * matrix 0 0 + gF * matrix 0 1 + bF * matrix 0 2,
    rF * matrix 1 0 + gF * matrix 1 1 + bF * matrix 1 2,
    rF * matrix 2 0 + gF * matrix 2 1 + bF * matrix 2 2]

/-! ### hct package: the Hct value type -/

/-- Hct stores hue, chroma, tone and the solved ARGB. -/
structure Hct where
  hue : ℝ
  chroma : ℝ
  tone : ℝ
  argb : ℕ

/-- setInternalState recomputes hue/chroma/tone of an Hct from an ARGB value
(the Go method mutates in place; the embedding returns the resulting state). -/
def setInternalState (argb : ℕ) : Hct :=
  let cam := Cam16FromInt argb
  ⟨cam.hue, cam.chroma, LstarFromArgb argb, argb⟩

/-- NewHctFromInt creates an HCT color from an ARGB representation. -/
def NewHctFromInt (argb : ℕ) : Hct :=
  setInternalState argb

/-- ToInt returns the ARGB representation of the HCT color. -/
def Hct.ToInt (h : Hct) : ℕ :=
  h.argb

/-! ### Definitions for claim C2 -/

/-- A coherent test viewing-conditions bundle whose `FlRoot` field is, as in
`MakeViewingConditions`, the fourth root of its `Fl` field (here `Fl = 1/4`).
Field order: Aw, Nbb, Ncb, C, Nc, N, RgbD, Fl, FlRoot, Z. -/
def vcFlQuarter : ViewingConditions :=
  ⟨1, 1, 1, 1, 1, 1, ![1, 1, 1], 1 / 4, (1 / 4 : ℝ) ^ (0.25 : ℝ), 1⟩

/-! ### Definitions for claim C9 -/

/-- Fp is a minimal model of IEEE-754 double values sufficient for the
expressions on the path from `alpha` to `s` in
`cam16FromJchInViewingConditions`: finite values, the two infinities, and
NaN.  The real-valued embedding identifies `x / 0` with `0` and therefore
cannot express the division-by-zero behaviour this claim is about. -/
inductive Fp where
  | fin (x : ℝ)
  | posInf
  | negInf
  | nan

/-- IEEE multiplication on `Fp` (signed zeros are identified; an infinity
times zero is NaN). -/
def Fp.mul : Fp → Fp → Fp
  | Fp.nan, _ => Fp.nan
  | _, Fp.nan => Fp.nan
  | Fp.fin a, Fp.fin b => Fp.fin (a * b)
  | Fp.fin a, Fp.posInf =>
      if 0 < a then Fp.posInf else if a < 0 then Fp.negInf else Fp.nan
  | Fp.posInf, Fp.fin b =>
      if 0 < b then Fp.posInf else if b < 0 then Fp.negInf else Fp.nan
  | Fp.fin a, Fp.negInf =>
      if 0 < a then Fp.negInf else if a < 0 then Fp.posInf else Fp.nan
  | Fp.negInf, Fp.fin b =>
      if 0 < b then Fp.negInf else if b < 0 then Fp.posInf else Fp.nan
  | Fp.posInf, Fp.posInf => Fp.posInf
  | Fp.posInf, Fp.negInf => Fp.negInf
  | Fp.negInf, Fp.posInf => Fp.negInf
  | Fp.negInf, Fp.negInf => Fp.posInf

/-- IEEE division on `Fp` (signed zeros are identified with `+0`, which is
the case arising here: `math.Sqrt(0/100) = +0`). -/
def Fp.div : Fp → Fp → Fp
  | Fp.nan, _ => Fp.nan
  | _, Fp.nan => Fp.nan
  | Fp.fin a, Fp.fin b =>
      if b ≠ 0 then Fp.fin (a / b)
      else if 0 < a then Fp.posInf else if a < 0 then Fp.negInf else Fp.nan
  | Fp.fin _, Fp.posInf => Fp.fin 0
  | Fp.fin _, Fp.negInf => Fp.fin 0
  | Fp.posInf, Fp.fin b => if 0 ≤ b then Fp.posInf else Fp.negInf
  | Fp.negInf, Fp.fin b => if 0 ≤ b then Fp.negInf else Fp.posInf
  | Fp.posInf, _ => Fp.nan
  | Fp.negInf, _ => Fp.nan

/-- IEEE square root on `Fp`. -/
def Fp.sqrt : Fp → Fp
  | Fp.nan => Fp.nan
  | Fp.negInf => Fp.nan
  | Fp.posInf => Fp.posInf
  | Fp.fin a => if a < 0 then Fp.nan else Fp.fin (Real.sqrt a)

/-- Finiteness predicate on `Fp`. -/
def Fp.finite : Fp → Bool
  | Fp.fin _ => true
  | _ => false

/-- The saturation field `s` of `cam16FromJchInViewingConditions`, evaluated
under the IEEE special-value semantics `Fp`: the source's
`alpha := c / math.Sqrt(j/100.0)` followed by
`s := 50.0 * math.Sqrt((alpha*vc.C)/(vc.Aw+4.0))`, with no guard on `j = 0`
(the hue argument is unused by `s`, exactly as in the source). -/
def cam16FromJchSaturationFp (j c _h : ℝ) (viewingConditions : ViewingConditions) : Fp :=
  let alpha := Fp.div (Fp.fin c) (Fp.sqrt (Fp.fin (j / 100)))
  Fp.mul (Fp.fin 50)
    (Fp.sqrt (Fp.div (Fp.mul alpha (Fp.fin viewingConditions.C))
      (Fp.fin (viewingConditions.Aw + 4))))

/-- A trivial all-ones viewing-conditions bundle for the C9 witness. -/
def vcUnit : ViewingConditions :=
  ⟨1, 1, 1, 1, 1, 1, ![1, 1, 1], 1, 1, 1⟩

/-! ### palettes package (src/palettes/tonal_palette.go)

The HCT solver `solveToInt` is called by `NewHct` but its definition is not
part of the sources; the palette code below is therefore parameterised by the
solver function `solve : ℝ → ℝ → ℝ → ℕ`, and the theorems about it hold for
every solver.
-/

/-- Semantics of Go's `math.Round` as a float-valued function: rounding half
away from zero to an integral value. -/
def goRound (x : ℝ) : ℝ :=
  (goRoundToInt x : ℝ)

/-- NewHct creates an HCT color from hue, chroma and tone: it stores the
three requested coordinates unchanged together with the solver's ARGB
(`argb := solveToInt(hue, chroma, tone)`); it does not re-derive hue, chroma
or tone from the solved ARGB. -/
def NewHct (solve : ℝ → ℝ → ℝ → ℕ) (hue chroma tone : ℝ) : Hct :=
  ⟨hue, chroma, tone, solve hue chroma tone⟩

/-- TonalPalette: cache from integer tone to ARGB, key color, hue, chroma
(fields in source order). -/
structure TonalPalette where
  cache : ℤ → Option ℕ
  keyColor : Hct
  hue : ℝ
  chroma : ℝ

/-- The `for delta := 1.0; delta < 50.0; delta += 1.0` loop of
`createKeyColor`, with `fuel` counting the remaining iterations (49 at entry,
so the loop body runs for delta = 1..49 and then returns the current
`smallestDeltaHct`).  Each iteration first tests the early-return condition
`math.Round(chroma) == math.Round(smallestDeltaHct.GetChroma())`, then probes
tone `50 + delta` and tone `50 - delta`, keeping the candidate whose chroma
is closest to the request. -/
def createKeyColorLoop (solve : ℝ → ℝ → ℝ → ℕ) (hue chroma : ℝ) :
    ℕ → ℕ → Hct → ℝ → Hct
  | 0, _, smallestDeltaHct, _ => smallestDeltaHct
  | Nat.succ fuel, delta, smallestDeltaHct, smallestDelta =>
      if goRound chroma = goRound smallestDeltaHct.chroma then smallestDeltaHct
      else
        let hctAdd := NewHct solve hue chroma (50 + (delta : ℝ))
        let hctAddDelta := |hctAdd.chroma - chroma|
        let afterAdd : Hct × ℝ :=
          if hctAddDelta < smallestDelta then (hctAdd, hctAddDelta)
          else (smallestDeltaHct, smallestDelta)
        let hctSubtract := NewHct solve hue chroma (50 - (delta : ℝ))
        let hctSubtractDelta := |hctSubtract.chroma - chroma|
        let afterSub : Hct × ℝ :=
          if hctSubtractDelta < afterAdd.2 then (hctSubtract, hctSubtractDelta)
          else afterAdd
        createKeyColorLoop solve hue chroma fuel (delta + 1) afterSub.1 afterSub.2

/-- createKeyColor creates the key color of the TonalPalette. -/
def createKeyColor (solve : ℝ → ℝ → ℝ → ℕ) (hue chroma : ℝ) : Hct :=
  let startTone : ℝ := 50
  let smallestDeltaHct := NewHct solve hue chroma startTone
  let smallestDelta := |smallestDeltaHct.chroma - chroma|
  createKeyColorLoop solve hue chroma 49 1 smallestDeltaHct smallestDelta

/-- NewTonalPaletteFromHueChroma creates a TonalPalette from a hue and
chroma, with an empty cache. -/
def NewTonalPaletteFromHueChroma (solve : ℝ → ℝ → ℝ → ℕ) (hue chroma : ℝ) : TonalPalette :=
  ⟨fun _ => none, createKeyColor solve hue chroma, hue, chroma⟩

/-- Tone returns the ARGB color of the palette at the given integer tone,
consulting and filling the cache; the Go method mutates the receiver's map,
so the embedding returns the value together with the resulting palette
state. -/
def TonalPalette.Tone (solve : ℝ → ℝ → ℝ → ℕ) (tp : TonalPalette) (tone : ℤ) :
    ℕ × TonalPalette :=
  match tp.cache tone with
  | some color => (color, tp)
  | none =>
      let color := (NewHct solve tp.hue tp.chroma (tone : ℝ)).ToInt
      (color, ⟨fun t => if t = tone then some color else tp.cache t,
        tp.keyColor, tp.hue, tp.chroma⟩)

/-- A sequence of `Tone` calls, threading the palette state. -/
def toneRun (solve : ℝ → ℝ → ℝ → ℕ) (tp : TonalPalette) : List ℤ → TonalPalette
  | [] => tp
  | n :: ns => toneRun solve (TonalPalette.Tone solve tp n).2 ns

/-! ### Definitions for claim C1 (the solver itself is not part of the sources) -/

/-- Modelled from the spec: `solveToInt` is called by `NewHct` and the
palette code, but its definition is missing from the sources.  Following
spec §4.5: the hue is first sanitised; if `chroma < 1e-6` or `tone ≤ 1e-6`
or `tone ≥ 100 - 1e-6` the near-achromatic fast path returns the grayscale
`ArgbFromLstar(tone)`; otherwise a gamut search runs, whose exact algorithm
the spec leaves open ("the contract is the output ARGB, not the path"), so
it is abstracted as the parameter `search`. -/
def solveToInt (search : ℝ → ℝ → ℝ → ℕ) (hue chroma tone : ℝ) : ℕ :=
  let hueSanitized := SanitizeDegreesDouble hue
  if chroma < 1e-6 ∨ tone ≤ 1e-6 ∨ tone ≥ 100 - 1e-6 then ArgbFromLstar tone
  else search hueSanitized chroma tone

/-- A trivial solver and palette for the C7 witness. -/
def solveZero : ℝ → ℝ → ℝ → ℕ :=
  fun _ _ _ => 42

/-- An empty-cache palette for the C7 witness. -/
def tpTest : TonalPalette :=
  ⟨fun _ => none, ⟨0, 0, 0, 0⟩, 1, 2⟩

/-! ### Theorems: generic helpers for rational powers

Go's `math.Pow(x, e)` with a rational exponent `e = n/m` is `Real.rpow`.
Comparisons of such powers against rationals reduce to integer-power
comparisons, which `norm_num` can settle.
-/

/-- Comparison of a rational-exponent power with a constant, reduced to
natural powers: for `0 ≤ x` and `0 ≤ q`, `x ^ (n/m) ≤ q ↔ x ^ n ≤ q ^ m`. -/
lemma rpow_natDiv_le_iff {x q : ℝ} (hx : 0 ≤ x) (hq : 0 ≤ q) (n m : ℕ) (hm : 0 < m) :
    x ^ ((n : ℝ) / (m : ℝ)) ≤ q ↔ x ^ n ≤ q ^ m := by
  have hs : (0 : ℝ) ≤ x ^ ((n : ℝ) / (m : ℝ)) := Real.rpow_nonneg hx _
  have hm' : ((m : ℝ)) ≠ 0 := Nat.cast_ne_zero.mpr hm.ne'
  have key : (x ^ ((n : ℝ) / (m : ℝ))) ^ m = x ^ n := by
    rw [← Real.rpow_natCast (x ^ ((n : ℝ) / (m : ℝ))) m, ← Real.rpow_mul hx,
      div_mul_cancel₀ _ hm', Real.rpow_natCast]
  constructor
  · intro h
    calc x ^ n = (x ^ ((n : ℝ) / (m : ℝ))) ^ m := key.symm
    _ ≤ q ^ m := pow_le_pow_left₀ hs h m
  · intro h
    by_contra hlt
    push_neg at hlt
    have : q ^ m < (x ^ ((n : ℝ) / (m : ℝ))) ^ m := by
      exact pow_lt_pow_left₀ hlt hq hm.ne'
    rw [key] at this
    exact absurd h (not_le.mpr this)

/-- Strict version of `rpow_natDiv_le_iff`. -/
lemma rpow_natDiv_lt_iff {x q : ℝ} (hx : 0 ≤ x) (hq : 0 ≤ q) (n m : ℕ) (hm : 0 < m) :
    x ^ ((n : ℝ) / (m : ℝ)) < q ↔ x ^ n < q ^ m := by
  constructor
  · intro h
    by_contra hle
    push_neg at hle
    have := (rpow_natDiv_le_iff hq hx n m hm).symm
    have h2 : q ^ m ≤ x ^ n → q ≤ x ^ ((n : ℝ) / (m : ℝ)) := by
      intro hq2
      by_contra hq3
      push_neg at hq3
      have h4 := (rpow_natDiv_le_iff hx hq n m hm).mp hq3.le
      have hs : (0 : ℝ) ≤ x ^ ((n : ℝ) / (m : ℝ)) := Real.rpow_nonneg hx _
      have h5 : x ^ n < q ^ m := by
        have key : (x ^ ((n : ℝ) / (m : ℝ))) ^ m = x ^ n := by
          have hm' : ((m : ℝ)) ≠ 0 := Nat.cast_ne_zero.mpr hm.ne'
          rw [← Real.rpow_natCast (x ^ ((n : ℝ) / (m : ℝ))) m, ← Real.rpow_mul hx,
            div_mul_cancel₀ _ hm', Real.rpow_natCast]
        calc x ^ n = (x ^ ((n : ℝ) / (m : ℝ))) ^ m := key.symm
          _ < q ^ m := pow_lt_pow_left₀ hq3 hs hm.ne'
      exact absurd hq2 (not_le.mpr h5)
    exact absurd h (not_lt.mpr (h2 hle))
  · intro h
    have h1 : ¬ q ≤ x ^ ((n : ℝ) / (m : ℝ)) := by
      intro hle
      have hs : (0 : ℝ) ≤ x ^ ((n : ℝ) / (m : ℝ)) := Real.rpow_nonneg hx _
      have key : (x ^ ((n : ℝ) / (m : ℝ))) ^ m = x ^ n := by
        have hm' : ((m : ℝ)) ≠ 0 := Nat.cast_ne_zero.mpr hm.ne'
        rw [← Real.rpow_natCast (x ^ ((n : ℝ) / (m : ℝ))) m, ← Real.rpow_mul hx,
          div_mul_cancel₀ _ hm', Real.rpow_natCast]
      have : q ^ m ≤ x ^ n := by
        calc q ^ m ≤ (x ^ ((n : ℝ) / (m : ℝ))) ^ m := pow_le_pow_left₀ hq hle m
        _ = x ^ n := key
      exact absurd this (not_le.mpr h)
    exact lt_of_not_ge h1

/-- Reverse comparison: `q ≤ x ^ (n/m) ↔ q ^ m ≤ x ^ n`. -/
lemma le_rpow_natDiv_iff {x q : ℝ} (hx : 0 ≤ x) (hq : 0 ≤ q) (n m : ℕ) (hm : 0 < m) :
    q ≤ x ^ ((n : ℝ) / (m : ℝ)) ↔ q ^ m ≤ x ^ n := by
  rw [← not_lt, rpow_natDiv_lt_iff hx hq n m hm, not_lt]

/-- Reverse strict comparison: `q < x ^ (n/m) ↔ q ^ m < x ^ n`. -/
lemma lt_rpow_natDiv_iff {x q : ℝ} (hx : 0 ≤ x) (hq : 0 ≤ q) (n m : ℕ) (hm : 0 < m) :
    q < x ^ ((n : ℝ) / (m : ℝ)) ↔ q ^ m < x ^ n := by
  rw [← not_le, rpow_natDiv_le_iff hx hq n m hm, not_le]

/-! ### Supporting lemmas about the color primitives -/

/-- ClampInt is the identity on values already inside the clamping range. -/
lemma ClampInt_eq_self {k : ℤ} (h0 : 0 ≤ k) (h1 : k ≤ 255) : ClampInt 0 255 k = k := by
  unfold ClampInt
  rw [if_neg (not_lt.mpr h0), if_neg (not_lt.mpr h1)]

/-- Evaluation of the Go rounding on a nonnegative real known to half-open
bracket an integer. -/
lemma goRoundToInt_eq_coe (k : ℕ) {x : ℝ} (hx : 0 ≤ x)
    (h1 : (k : ℝ) - 1 / 2 ≤ x) (h2 : x < (k : ℝ) + 1 / 2) : goRoundToInt x = (k : ℤ) := by
  unfold goRoundToInt
  rw [if_pos hx, Int.floor_eq_iff]
  constructor
  · push_cast
    linarith
  · push_cast
    linarith

/-- The linearized value of an 8-bit component lies in `[0, 100]`. -/
lemma Linearized_mem {c : ℕ} (hc : c ≤ 255) :
    0 ≤ Linearized c ∧ Linearized c ≤ 100 := by
  have hc' : (c : ℝ) ≤ 255 := by exact_mod_cast hc
  have hc0 : (0 : ℝ) ≤ (c : ℝ) := Nat.cast_nonneg c
  unfold Linearized
  by_cases h : (c : ℝ) / 255 ≤ 0.040449936
  · rw [if_pos h]
    constructor
    · positivity
    · calc (c : ℝ) / 255 / 12.92 * 100 = (c : ℝ) / 255 * (100 / 12.92) := by ring
      _ ≤ 0.040449936 * (100 / 12.92) := by
          exact mul_le_mul_of_nonneg_right h (by norm_num)
      _ ≤ 100 := by norm_num
  · rw [if_neg h]
    push_neg at h
    have hbase0 : (0 : ℝ) ≤ ((c : ℝ) / 255 + 0.055) / 1.055 := by positivity
    have hbase1 : ((c : ℝ) / 255 + 0.055) / 1.055 ≤ 1 := by
      rw [div_le_one (by norm_num : (0:ℝ) < 1.055)]
      nlinarith
    constructor
    · positivity
    · nlinarith [Real.rpow_le_one hbase0 hbase1 (by norm_num : (0:ℝ) ≤ 2.4),
        Real.rpow_nonneg hbase0 (2.4 : ℝ)]

/-- Every masked ARGB component is at most 255. -/
lemma component_le_255 (x : ℕ) : x &&& 255 ≤ 255 := Nat.and_le_right

/-- The Y row of `XyzFromArgb`, written out. -/
lemma XyzFromArgb_y (argb : ℕ) :
    XyzFromArgb argb 1 =
      Linearized (RedFromArgb argb) * 0.2126 + Linearized (GreenFromArgb argb) * 0.7152 +
        Linearized (BlueFromArgb argb) * 0.0722 := by
  unfold XyzFromArgb MatrixMultiply srgbToXyz
  norm_num

/-! ### Theorems for claim C3 -/

/-- C3: for every integer sRGB component `v ∈ [0, 255]`,
`Delinearized (Linearized v) = v`: linearization to the 0-100 scale with
threshold 0.040449936 on the normalized side followed by delinearization with
threshold 0.0031308, rounding and clamping, recovers the component exactly. -/
theorem delinearized_linearized_roundtrip (v : ℕ) (hv : v ≤ 255) :
    Delinearized (Linearized v) = (v : ℤ) := by
  have hv' : (v : ℝ) ≤ 255 := by exact_mod_cast hv
  have hv0 : (0 : ℝ) ≤ (v : ℝ) := Nat.cast_nonneg v
  by_cases hsmall : v ≤ 10
  · -- linear branch on both sides
    have hsmall' : (v : ℝ) ≤ 10 := by exact_mod_cast hsmall
    have hA : (v : ℝ) / 255 ≤ 0.040449936 := by
      rw [div_le_iff₀ (by norm_num : (0:ℝ) < 255)]
      nlinarith
    have hLin : Linearized v = (v : ℝ) / 255 / 12.92 * 100 := by
      unfold Linearized
      rw [if_pos hA]
    rw [hLin]
    simp only [Delinearized]
    have hnorm : (v : ℝ) / 255 / 12.92 * 100 / 100 = (v : ℝ) / 255 / 12.92 := by ring
    rw [hnorm]
    have hB : (v : ℝ) / 255 / 12.92 ≤ 0.0031308 := by
      rw [div_le_iff₀ (by norm_num : (0:ℝ) < 12.92)]
      nlinarith
    rw [if_pos hB]
    have hprod : (v : ℝ) / 255 / 12.92 * 12.92 * 255 = (v : ℝ) := by
      field_simp
      ring
    rw [hprod, goRoundToInt_eq_coe v hv0 (by linarith) (by linarith)]
    exact ClampInt_eq_self (by positivity) (by exact_mod_cast hv)
  · -- power branch on both sides
    push_neg at hsmall
    have h11 : (11 : ℝ) ≤ (v : ℝ) := by exact_mod_cast hsmall
    have hA : ¬ ((v : ℝ) / 255 ≤ 0.040449936) := by
      push_neg
      rw [lt_div_iff₀ (by norm_num : (0:ℝ) < 255)]
      nlinarith
    have hLin : Linearized v = (((v : ℝ) / 255 + 0.055) / 1.055) ^ (2.4 : ℝ) * 100 := by
      unfold Linearized
      rw [if_neg hA]
    set base : ℝ := ((v : ℝ) / 255 + 0.055) / 1.055 with hbase
    have hbase0 : (0 : ℝ) ≤ base := by positivity
    have hbase_lb : (1001 : ℝ) / 10761 ≤ base := by
      rw [hbase, div_le_div_iff₀ (by norm_num : (0:ℝ) < 10761) (by norm_num : (0:ℝ) < 1.055)]
      nlinarith
    have hcert : (0.0031308 : ℝ) < ((1001 : ℝ) / 10761) ^ ((12 : ℝ) / 5) := by
      have h12 : ((12 : ℝ) / 5) = ((12 : ℕ) : ℝ) / ((5 : ℕ) : ℝ) := by norm_num
      rw [h12, lt_rpow_natDiv_iff (by norm_num) (by norm_num) 12 5 (by norm_num)]
      norm_num
    have h24 : (2.4 : ℝ) = 12 / 5 := by norm_num
    have hpow_lb : (0.0031308 : ℝ) < base ^ (2.4 : ℝ) := by
      calc (0.0031308 : ℝ) < ((1001 : ℝ) / 10761) ^ ((12 : ℝ) / 5) := hcert
      _ ≤ base ^ ((12 : ℝ) / 5) := Real.rpow_le_rpow (by norm_num) hbase_lb (by norm_num)
      _ = base ^ (2.4 : ℝ) := by rw [h24]
    rw [hLin]
    simp only [Delinearized]
    have hnorm : base ^ (2.4 : ℝ) * 100 / 100 = base ^ (2.4 : ℝ) := by ring
    rw [hnorm, if_neg (not_le.mpr hpow_lb)]
    have hinv : (base ^ (2.4 : ℝ)) ^ ((1 : ℝ) / 2.4) = base := by
      rw [← Real.rpow_mul hbase0]
      norm_num
    rw [hinv]
    have hval : (1.055 * base - 0.055) * 255 = (v : ℝ) := by
      rw [hbase]
      field_simp
      ring
    rw [hval, goRoundToInt_eq_coe v hv0 (by linarith) (by linarith)]
    exact ClampInt_eq_self (by positivity) (by exact_mod_cast hv)

/-- Witness for C3 at the concrete component 128. -/
theorem delinearized_linearized_roundtrip_witness :
    128 ≤ 255 ∧ Delinearized (Linearized 128) = (128 : ℤ) :=
  ⟨by norm_num, delinearized_linearized_roundtrip 128 (by norm_num)⟩

/-! ### Theorems for claim C4 -/

/-- C4: for every `L* ∈ [0, 100]`, `|LstarFromY (YFromLstar L*) − L*| < 1e-9`;
in the real-valued semantics the round trip is exactly the identity because
the two piecewise branches agree at the crossover (`YFromLstar` switches at
`L* = 8`, `labF` at `t = 216/24389`). -/
theorem lstarFromY_yFromLstar_roundtrip (lstar : ℝ) (h0 : 0 ≤ lstar) (_h1 : lstar ≤ 100) :
    |LstarFromY (YFromLstar lstar) - lstar| < 1e-9 := by
  have key : LstarFromY (YFromLstar lstar) = lstar := by
    unfold YFromLstar LstarFromY labF
    by_cases hl : lstar > 8
    · rw [if_pos hl]
      set base : ℝ := (lstar + 16) / 116 with hbase
      have hbase_pos : (0 : ℝ) < base := by rw [hbase]; positivity
      have hbase_lb : (6 : ℝ) / 29 < base := by
        rw [hbase]
        rw [div_lt_div_iff₀ (by norm_num : (0:ℝ) < 29) (by norm_num : (0:ℝ) < 116)]
        nlinarith
      have hdiv : base ^ (3 : ℝ) * 100 / 100 = base ^ (3 : ℝ) := by ring
      rw [hdiv]
      have h3 : base ^ (3 : ℝ) = base ^ (3 : ℕ) := by
        rw [show (3:ℝ) = ((3:ℕ):ℝ) by norm_num, Real.rpow_natCast]
      have hcond : base ^ (3 : ℝ) > 216 / 24389 := by
        rw [h3]
        nlinarith [sq_nonneg (base - 6/29), sq_nonneg (base + 6/29)]
      rw [if_pos hcond]
      have hinv : (base ^ (3 : ℝ)) ^ ((1 : ℝ) / 3) = base := by
        rw [← Real.rpow_mul hbase_pos.le]
        norm_num
      rw [hinv, hbase]
      ring
    · rw [if_neg hl]
      push_neg at hl
      have hdiv : lstar / (24389 / 27) * 100 / 100 = lstar * (27 / 24389) := by ring
      rw [hdiv]
      have hcond : ¬ (lstar * (27 / 24389) > 216 / 24389) := by
        push_neg
        nlinarith
      rw [if_neg hcond]
      ring
  rw [key, sub_self, abs_zero]
  norm_num

/-- Witness for C4 at `L* = 50`. -/
theorem lstarFromY_yFromLstar_roundtrip_witness :
    (0 : ℝ) ≤ 50 ∧ (50 : ℝ) ≤ 100 ∧ |LstarFromY (YFromLstar 50) - 50| < 1e-9 :=
  ⟨by norm_num, by norm_num,
    lstarFromY_yFromLstar_roundtrip 50 (by norm_num) (by norm_num)⟩

/-! ### Theorems for claim C5 -/

/-- C5: for every 32-bit ARGB value (any alpha byte), `LstarFromArgb` lies in
the closed interval `[0, 100]`.  Stated for every natural-number ARGB word,
which subsumes all 32-bit values; the channel extraction masks to 8 bits. -/
theorem lstarFromArgb_mem_Icc (argb : ℕ) :
    0 ≤ LstarFromArgb argb ∧ LstarFromArgb argb ≤ 100 := by
  obtain ⟨hr0, hr1⟩ :=
    Linearized_mem (show RedFromArgb argb ≤ 255 from component_le_255 (argb >>> 16))
  obtain ⟨hg0, hg1⟩ :=
    Linearized_mem (show GreenFromArgb argb ≤ 255 from component_le_255 (argb >>> 8))
  obtain ⟨hb0, hb1⟩ :=
    Linearized_mem (show BlueFromArgb argb ≤ 255 from component_le_255 argb)
  have hyrow := XyzFromArgb_y argb
  simp only [LstarFromArgb]
  rw [hyrow]
  set Lr := Linearized (RedFromArgb argb) with hLr
  set Lg := Linearized (GreenFromArgb argb) with hLg
  set Lb := Linearized (BlueFromArgb argb) with hLb
  set y : ℝ := (Lr * 0.2126 + Lg * 0.7152 + Lb * 0.0722) / 100 with hy
  have hy0 : 0 ≤ y := by rw [hy]; positivity
  have hy1 : y ≤ 1 := by
    rw [hy, div_le_one (by norm_num : (0:ℝ) < 100)]
    nlinarith
  by_cases hcase : y ≤ 216 / 24389
  · rw [if_pos hcase]
    constructor
    · positivity
    · nlinarith
  · rw [if_neg hcase]
    push_neg at hcase
    have hroot_lb : (4 : ℝ) / 29 ≤ y ^ ((1 : ℝ) / 3) := by
      have h13 : ((1 : ℝ) / 3) = ((1 : ℕ) : ℝ) / ((3 : ℕ) : ℝ) := by norm_num
      rw [h13, le_rpow_natDiv_iff hy0 (by norm_num) 1 3 (by norm_num)]
      rw [pow_one]
      nlinarith
    have hroot_ub : y ^ ((1 : ℝ) / 3) ≤ 1 := Real.rpow_le_one hy0 hy1 (by norm_num)
    constructor
    · nlinarith
    · nlinarith

/-! ### Theorems for claim C8 -/

/-- C8: for every real degree value, `SanitizeDegreesDouble` returns a value
in `[0, 360)` that differs from the input by an integer multiple of 360. -/
theorem sanitizeDegreesDouble_mem_congruent (d : ℝ) :
    (0 ≤ SanitizeDegreesDouble d ∧ SanitizeDegreesDouble d < 360) ∧
      ∃ k : ℤ, SanitizeDegreesDouble d = d - 360 * k := by
  have hd : d = 360 * (d / 360) := by field_simp
  unfold SanitizeDegreesDouble goMod goTrunc
  by_cases hc : 0 ≤ d / 360
  · rw [if_pos hc]
    have hfl : (⌊d / 360⌋ : ℝ) ≤ d / 360 := Int.floor_le _
    have hfu : d / 360 < ⌊d / 360⌋ + 1 := Int.lt_floor_add_one _
    have hm0 : 0 ≤ d - 360 * (⌊d / 360⌋ : ℝ) := by nlinarith
    have hm1 : d - 360 * (⌊d / 360⌋ : ℝ) < 360 := by nlinarith
    rw [if_neg (not_lt.mpr hm0)]
    exact ⟨⟨hm0, hm1⟩, ⟨⌊d / 360⌋, by ring⟩⟩
  · rw [if_neg hc]
    push_neg at hc
    have hcl : d / 360 ≤ (⌈d / 360⌉ : ℝ) := Int.le_ceil _
    have hcu : (⌈d / 360⌉ : ℝ) < d / 360 + 1 := Int.ceil_lt_add_one _
    have hm0 : d - 360 * (⌈d / 360⌉ : ℝ) ≤ 0 := by nlinarith
    have hm1 : -360 < d - 360 * (⌈d / 360⌉ : ℝ) := by nlinarith
    by_cases hneg : d - 360 * (⌈d / 360⌉ : ℝ) < 0
    · rw [if_pos hneg]
      refine ⟨⟨by linarith, by linarith⟩, ⟨⌈d / 360⌉ - 1, ?_⟩⟩
      push_cast
      ring
    · rw [if_neg hneg]
      push_neg at hneg
      refine ⟨⟨hneg, by linarith⟩, ⟨⌈d / 360⌉, by ring⟩⟩

/-! ### Theorems for claim C10 -/

/-- Numbers that agree on their low 24 bits agree bitwise below bit 24. -/
lemma testBit_eq_of_mod_eq {x y : ℕ} (h : x % 2 ^ 24 = y % 2 ^ 24) :
    ∀ i, i < 24 → x.testBit i = y.testBit i := by
  intro i hi
  have hxy : (x % 2 ^ 24).testBit i = (y % 2 ^ 24).testBit i :=
    congrArg (fun z => Nat.testBit z i) h
  rw [Nat.testBit_mod_two_pow, Nat.testBit_mod_two_pow] at hxy
  simpa [hi] using hxy

/-- Masking with a constant below `2^24` only reads the low 24 bits. -/
lemma and_mask_eq_of_mod_eq {x y : ℕ} (mask : ℕ) (hmask : mask < 2 ^ 24)
    (h : x % 2 ^ 24 = y % 2 ^ 24) : x &&& mask = y &&& mask := by
  apply Nat.eq_of_testBit_eq
  intro i
  rw [Nat.testBit_and, Nat.testBit_and]
  rcases lt_or_ge i 24 with hi | hi
  · rw [testBit_eq_of_mod_eq h i hi]
  · have hbit : mask.testBit i = false := by
      apply Nat.testBit_eq_false_of_lt
      calc mask < 2 ^ 24 := hmask
      _ ≤ 2 ^ i := Nat.pow_le_pow_right (by norm_num) hi
    rw [hbit, Bool.and_false, Bool.and_false]

/-- Shift-then-mask channel extraction only reads the low 24 bits when the
shift plus the 8-bit mask stays below bit 24. -/
lemma shiftRight_and_255_eq_of_mod_eq {x y : ℕ} (k : ℕ) (hk : k + 8 ≤ 24)
    (h : x % 2 ^ 24 = y % 2 ^ 24) : (x >>> k) &&& 255 = (y >>> k) &&& 255 := by
  apply Nat.eq_of_testBit_eq
  intro i
  rw [Nat.testBit_and, Nat.testBit_and, Nat.testBit_shiftRight, Nat.testBit_shiftRight]
  rcases lt_or_ge i 8 with hi | hi
  · rw [testBit_eq_of_mod_eq h (k + i) (by omega)]
  · have hbit : (255 : ℕ).testBit i = false := by
      apply Nat.testBit_eq_false_of_lt
      calc (255 : ℕ) < 2 ^ 8 := by norm_num
      _ ≤ 2 ^ i := Nat.pow_le_pow_right (by norm_num) hi
    rw [hbit, Bool.and_false, Bool.and_false]

/-- C10: the CAM16 forward transform from an ARGB integer ignores the alpha
byte: ARGB words with equal low 24 bits give identical Cam16 bundles under
any viewing conditions; hence `NewHctFromInt` assigns them identical hue,
chroma and tone, and only the stored argb field (returned unchanged by
`ToInt`) reflects the alpha byte. -/
theorem cam16FromInt_ignores_alpha (x y : ℕ) (vc : ViewingConditions)
    (h : x % 2 ^ 24 = y % 2 ^ 24) :
    Cam16FromIntInViewingConditions x vc = Cam16FromIntInViewingConditions y vc ∧
      (NewHctFromInt x).hue = (NewHctFromInt y).hue ∧
      (NewHctFromInt x).chroma = (NewHctFromInt y).chroma ∧
      (NewHctFromInt x).tone = (NewHctFromInt y).tone ∧
      (NewHctFromInt x).ToInt = x := by
  have hr : x &&& 0x00ff0000 = y &&& 0x00ff0000 :=
    and_mask_eq_of_mod_eq 0x00ff0000 (by norm_num) h
  have hg : x &&& 0x0000ff00 = y &&& 0x0000ff00 :=
    and_mask_eq_of_mod_eq 0x0000ff00 (by norm_num) h
  have hb : x &&& 0x000000ff = y &&& 0x000000ff :=
    and_mask_eq_of_mod_eq 0x000000ff (by norm_num) h
  have hcam : ∀ vc' : ViewingConditions,
      Cam16FromIntInViewingConditions x vc' = Cam16FromIntInViewingConditions y vc' := by
    intro vc'
    simp only [Cam16FromIntInViewingConditions]
    rw [hr, hg, hb]
  have h16 : (x >>> 16) &&& 255 = (y >>> 16) &&& 255 :=
    shiftRight_and_255_eq_of_mod_eq 16 (by norm_num) h
  have h8 : (x >>> 8) &&& 255 = (y >>> 8) &&& 255 :=
    shiftRight_and_255_eq_of_mod_eq 8 (by norm_num) h
  have htone : LstarFromArgb x = LstarFromArgb y := by
    simp only [LstarFromArgb, XyzFromArgb, RedFromArgb, GreenFromArgb, BlueFromArgb]
    rw [h16, h8, hb]
  refine ⟨hcam vc, ?_, ?_, ?_, rfl⟩
  · simp only [NewHctFromInt, setInternalState, Cam16FromInt]
    rw [hcam DefaultViewingConditions]
  · simp only [NewHctFromInt, setInternalState, Cam16FromInt]
    rw [hcam DefaultViewingConditions]
  · simp only [NewHctFromInt, setInternalState]
    rw [htone]

/-! ### Theorems for claim C2 -/

/-- C2 fails on the code: `cam16FromJchInViewingConditions` computes its
colorfulness as `c * sqrt(Fl)` rather than `c * FlRoot` with
`FlRoot = Fl^(1/4)` as the forward transform does.  At `(J, C, h) =
(50, 20, 100)` under a coherent viewing-conditions bundle with `Fl = 1/4`
(so `FlRoot = (1/4)^(1/4)`), the code's `m` differs from the claimed
`C * FlRoot`. -/
theorem cam16FromJch_m_deviates_from_flRoot :
    vcFlQuarter.FlRoot = vcFlQuarter.Fl ^ (0.25 : ℝ) ∧
      (cam16FromJchInViewingConditions 50 20 100 vcFlQuarter).m ≠ 20 * vcFlQuarter.FlRoot := by
  refine ⟨rfl, ?_⟩
  have hm : (cam16FromJchInViewingConditions 50 20 100 vcFlQuarter).m =
      20 * Real.sqrt (1 / 4) := rfl
  have hflroot : vcFlQuarter.FlRoot = (1 / 4 : ℝ) ^ (0.25 : ℝ) := rfl
  have hsqrt : Real.sqrt (1 / 4 : ℝ) = 1 / 2 := by
    rw [show (1 / 4 : ℝ) = (1 / 2) ^ 2 by norm_num, Real.sqrt_sq (by norm_num : (0:ℝ) ≤ 1 / 2)]
  rw [hm, hflroot, hsqrt]
  intro heq
  have hval : ((1 / 4 : ℝ) ^ (0.25 : ℝ)) = 1 / 2 := by linarith
  have h4 : ((1 / 4 : ℝ) ^ (0.25 : ℝ)) ^ (4 : ℕ) = 1 / 4 := by
    rw [← Real.rpow_natCast ((1 / 4 : ℝ) ^ (0.25 : ℝ)) 4, ← Real.rpow_mul (by norm_num : (0:ℝ) ≤ 1 / 4)]
    norm_num
  rw [hval] at h4
  norm_num at h4

/-! ### Theorems for claim C9 -/

/-- A non-finite value times a finite right factor stays non-finite. -/
lemma Fp.finite_mul_posInf_fin (b : ℝ) : (Fp.mul Fp.posInf (Fp.fin b)).finite = false := by
  simp only [Fp.mul]
  split_ifs <;> rfl

/-- Division of a non-finite value by a finite one stays non-finite. -/
lemma Fp.finite_div_nonfin_fin (a : Fp) (b : ℝ) (ha : a.finite = false) :
    (Fp.div a (Fp.fin b)).finite = false := by
  cases a with
  | fin x => simp [Fp.finite] at ha
  | posInf => simp only [Fp.div]; split_ifs <;> rfl
  | negInf => simp only [Fp.div]; split_ifs <;> rfl
  | nan => rfl

/-- Square root of a non-finite value stays non-finite. -/
lemma Fp.finite_sqrt_nonfin (a : Fp) (ha : a.finite = false) :
    (Fp.sqrt a).finite = false := by
  cases a with
  | fin x => simp [Fp.finite] at ha
  | posInf => rfl
  | negInf => rfl
  | nan => rfl

/-- A finite left factor times a non-finite value stays non-finite. -/
lemma Fp.finite_mul_fin_nonfin (a : ℝ) (b : Fp) (hb : b.finite = false) :
    (Fp.mul (Fp.fin a) b).finite = false := by
  cases b with
  | fin x => simp [Fp.finite] at hb
  | posInf => simp only [Fp.mul]; split_ifs <;> rfl
  | negInf => simp only [Fp.mul]; split_ifs <;> rfl
  | nan => rfl

/-- C9: `cam16FromJchInViewingConditions` computes `alpha = c / sqrt(j/100)`
with no guard for `j = 0` (unlike the inverse transform
`XyzInViewingConditions`, which substitutes `alpha = 0` when chroma or J is
zero), so for every chroma `c > 0` and any hue and viewing conditions —
in particular `Cam16FromJch(0, c, h)` at the public interface — the
saturation field `s` evaluates, under IEEE semantics, to a non-finite value. -/
theorem cam16FromJch_zero_j_saturation_not_finite (c hue : ℝ) (vc : ViewingConditions)
    (hc : 0 < c) : (cam16FromJchSaturationFp 0 c hue vc).finite = false := by
  simp only [cam16FromJchSaturationFp]
  have h0 : ((0 : ℝ) / 100) = 0 := by norm_num
  rw [h0]
  have h1 : Fp.sqrt (Fp.fin (0 : ℝ)) = Fp.fin 0 := by
    simp only [Fp.sqrt]
    rw [if_neg (by norm_num), Real.sqrt_zero]
  rw [h1]
  have h2 : Fp.div (Fp.fin c) (Fp.fin 0) = Fp.posInf := by
    simp only [Fp.div]
    rw [if_neg (by simp), if_pos hc]
  rw [h2]
  apply Fp.finite_mul_fin_nonfin
  apply Fp.finite_sqrt_nonfin
  apply Fp.finite_div_nonfin_fin
  exact Fp.finite_mul_posInf_fin vc.C

/-- Witness for C9 at chroma 5, hue 0. -/
theorem cam16FromJch_zero_j_saturation_not_finite_witness :
    (0 : ℝ) < 5 ∧ (cam16FromJchSaturationFp 0 5 0 vcUnit).finite = false :=
  ⟨by norm_num, cam16FromJch_zero_j_saturation_not_finite 5 0 vcUnit (by norm_num)⟩

/-! ### palettes package (src/palettes/tonal_palette.go)

The HCT solver `solveToInt` is called by `NewHct` but its definition is not
part of the sources; the palette code below is therefore parameterised by the
solver function `solve : ℝ → ℝ → ℝ → ℕ`, and the theorems about it hold for
every solver.
-/

/-- Unfolding equation of the key-color loop on a positive fuel. -/
lemma createKeyColorLoop_succ (solve : ℝ → ℝ → ℝ → ℕ) (hue chroma : ℝ)
    (fuel delta : ℕ) (smallestDeltaHct : Hct) (smallestDelta : ℝ) :
    createKeyColorLoop solve hue chroma (fuel + 1) delta smallestDeltaHct smallestDelta =
      if goRound chroma = goRound smallestDeltaHct.chroma then smallestDeltaHct
      else
        let hctAdd := NewHct solve hue chroma (50 + (delta : ℝ))
        let hctAddDelta := |hctAdd.chroma - chroma|
        let afterAdd : Hct × ℝ :=
          if hctAddDelta < smallestDelta then (hctAdd, hctAddDelta)
          else (smallestDeltaHct, smallestDelta)
        let hctSubtract := NewHct solve hue chroma (50 - (delta : ℝ))
        let hctSubtractDelta := |hctSubtract.chroma - chroma|
        let afterSub : Hct × ℝ :=
          if hctSubtractDelta < afterAdd.2 then (hctSubtract, hctSubtractDelta)
          else afterAdd
        createKeyColorLoop solve hue chroma fuel (delta + 1) afterSub.1 afterSub.2 := rfl

/-! ### Theorems for claim C6 -/

/-- C6 fails on the code: because `NewHct` stores the requested chroma and
`GetChroma` returns that stored value, the loop's early-return test compares
`math.Round(chroma)` with itself and succeeds on the first iteration, so
`createKeyColor` returns the HCT at tone 50 for every hue, chroma and solver
— it never consults the solver-realised chroma. -/
theorem createKeyColor_always_tone_50 (solve : ℝ → ℝ → ℝ → ℕ) (hue chroma : ℝ) :
    createKeyColor solve hue chroma = NewHct solve hue chroma 50 := by
  simp only [createKeyColor]
  rw [show (49 : ℕ) = 48 + 1 from rfl, createKeyColorLoop_succ]
  rw [if_pos (show goRound chroma = goRound (NewHct solve hue chroma 50).chroma from rfl)]

/-! ### Theorems for claim C7 -/

/-- Reduction of `Tone` on a cache hit. -/
lemma Tone_some (solve : ℝ → ℝ → ℝ → ℕ) (tp : TonalPalette) (n : ℤ) (c : ℕ)
    (hc : tp.cache n = some c) : TonalPalette.Tone solve tp n = (c, tp) := by
  unfold TonalPalette.Tone
  rw [hc]

/-- Reduction of `Tone` on a cache miss. -/
lemma Tone_none (solve : ℝ → ℝ → ℝ → ℕ) (tp : TonalPalette) (n : ℤ)
    (hc : tp.cache n = none) :
    TonalPalette.Tone solve tp n =
      ((NewHct solve tp.hue tp.chroma (n : ℝ)).ToInt,
        ⟨fun t => if t = n then some ((NewHct solve tp.hue tp.chroma (n : ℝ)).ToInt)
            else tp.cache t,
          tp.keyColor, tp.hue, tp.chroma⟩) := by
  unfold TonalPalette.Tone
  rw [hc]

/-- One `Tone` call never erases a cache entry. -/
lemma Tone_cache_mono (solve : ℝ → ℝ → ℝ → ℕ) (tp : TonalPalette) (n m : ℤ) (v : ℕ)
    (hm : tp.cache m = some v) : (TonalPalette.Tone solve tp n).2.cache m = some v := by
  cases hc : tp.cache n with
  | some c => rw [Tone_some solve tp n c hc]; exact hm
  | none =>
      rw [Tone_none solve tp n hc]
      by_cases hmn : m = n
      · rw [hmn] at hm
        rw [hm] at hc
        exact Option.noConfusion hc
      · simpa [hmn] using hm

/-- Entries present in the cache survive any sequence of `Tone` calls. -/
lemma toneRun_cache_mono (solve : ℝ → ℝ → ℝ → ℕ) :
    ∀ (ns : List ℤ) (tp : TonalPalette) (m : ℤ) (v : ℕ),
      tp.cache m = some v → (toneRun solve tp ns).cache m = some v := by
  intro ns
  induction ns with
  | nil => intro tp m v hm; exact hm
  | cons n ns ih =>
      intro tp m v hm
      exact ih _ m v (Tone_cache_mono solve tp n m v hm)

/-- C7: the first `Tone(n)` call computes `NewHct(hue, chroma, n).ToInt()`,
stores it, and returns it; a later call returns the stored value; the cache
is grow-only and no other palette field changes — for every solver, palette
state and tone. -/
theorem tonalPalette_tone_cache_semantics (solve : ℝ → ℝ → ℝ → ℕ)
    (tp : TonalPalette) (n : ℤ) :
    (tp.cache n = none →
      (TonalPalette.Tone solve tp n).1 = (NewHct solve tp.hue tp.chroma (n : ℝ)).ToInt ∧
        (TonalPalette.Tone solve tp n).2.cache n = some (TonalPalette.Tone solve tp n).1) ∧
      (∀ v, tp.cache n = some v → TonalPalette.Tone solve tp n = (v, tp)) ∧
      (∀ m v, tp.cache m = some v →
        (TonalPalette.Tone solve tp n).2.cache m = some v) ∧
      (TonalPalette.Tone solve (TonalPalette.Tone solve tp n).2 n =
        ((TonalPalette.Tone solve tp n).1, (TonalPalette.Tone solve tp n).2)) ∧
      (TonalPalette.Tone solve tp n).2.hue = tp.hue ∧
      (TonalPalette.Tone solve tp n).2.chroma = tp.chroma ∧
      (TonalPalette.Tone solve tp n).2.keyColor = tp.keyColor ∧
      (∀ (ns : List ℤ) (m : ℤ) (v : ℕ), tp.cache m = some v →
        (toneRun solve tp ns).cache m = some v) := by
  cases hc : tp.cache n with
  | some c =>
      rw [Tone_some solve tp n c hc]
      refine ⟨?_, ?_, ?_, ?_, rfl, rfl, rfl, ?_⟩
      · intro hnone
        exact Option.noConfusion hnone
      · intro v hv
        have hcv : c = v := Option.some.inj hv
        rw [hcv]
      · intro m v hm
        exact hm
      · exact Tone_some solve tp n c hc
      · exact fun ns m v => toneRun_cache_mono solve ns tp m v
  | none =>
      rw [Tone_none solve tp n hc]
      refine ⟨?_, ?_, ?_, ?_, rfl, rfl, rfl, ?_⟩
      · intro _
        exact ⟨rfl, by simp⟩
      · intro v hv
        exact Option.noConfusion hv
      · intro m v hm
        by_cases hmn : m = n
        · rw [hmn] at hm
          rw [hm] at hc
          exact Option.noConfusion hc
        · simpa [hmn] using hm
      · exact Tone_some solve _ n _ (by simp)
      · exact fun ns m v => toneRun_cache_mono solve ns tp m v

/-! ### Theorems for claim C1 (the solver itself is not part of the sources) -/

/-- The alpha byte of any `ArgbFromRgb` result is 255. -/
lemma AlphaFromArgb_ArgbFromRgb (red green blue : ℤ) :
    AlphaFromArgb (ArgbFromRgb red green blue) = 255 := by
  apply Nat.eq_of_testBit_eq
  intro i
  unfold AlphaFromArgb ArgbFromRgb
  rw [Nat.testBit_and, Nat.testBit_shiftRight]
  simp only [Nat.testBit_or, Nat.testBit_shiftLeft]
  have h24 : 24 + i - 24 = i := by omega
  rcases lt_or_ge i 8 with hi | hi
  · have h255 : (255 : ℕ).testBit i = true := by
      rw [show (255 : ℕ) = 2 ^ 8 - 1 by norm_num, Nat.testBit_two_pow_sub_one]
      simpa using hi
    rw [h24]
    simp [h255]
  · have h255 : (255 : ℕ).testBit i = false := by
      rw [show (255 : ℕ) = 2 ^ 8 - 1 by norm_num, Nat.testBit_two_pow_sub_one]
      simpa using hi
    simp [h255]

/-- Every `ArgbFromRgb` result is opaque. -/
lemma IsOpaque_ArgbFromRgb (red green blue : ℤ) :
    IsOpaque (ArgbFromRgb red green blue) = true := by
  simp [IsOpaque, AlphaFromArgb_ArgbFromRgb]

/-- Evaluation of `Delinearized` on the power branch from two rational
power certificates bracketing the rounded value at `k`. -/
lemma Delinearized_eq_of_certs (u : ℝ) (k : ℕ) (hk1 : 1 ≤ k) (hk255 : k ≤ 255)
    (hbranch : ¬ (u / 100 ≤ 0.0031308))
    (hlo : ((((k : ℝ) - 1 / 2) / 255 + 0.055) / 1.055) ^ 12 ≤ (u / 100) ^ 5)
    (hhi : (u / 100) ^ 5 < ((((k : ℝ) + 1 / 2) / 255 + 0.055) / 1.055) ^ 12) :
    Delinearized u = (k : ℤ) := by
  have hu0 : 0 ≤ u / 100 := by
    by_contra hneg
    push_neg at hneg
    exact hbranch (by linarith)
  have hk1' : (1 : ℝ) ≤ (k : ℝ) := by exact_mod_cast hk1
  simp only [Delinearized]
  rw [if_neg hbranch]
  have hL0 : (0 : ℝ) ≤ (((k : ℝ) - 1 / 2) / 255 + 0.055) / 1.055 := by
    apply div_nonneg _ (by norm_num)
    have : (0 : ℝ) ≤ ((k : ℝ) - 1 / 2) / 255 := by
      apply div_nonneg _ (by norm_num)
      linarith
    linarith
  have hU0 : (0 : ℝ) ≤ (((k : ℝ) + 1 / 2) / 255 + 0.055) / 1.055 := by positivity
  have hexp : (1 : ℝ) / 2.4 = ((5 : ℕ) : ℝ) / ((12 : ℕ) : ℝ) := by norm_num
  have hs_lo : (((k : ℝ) - 1 / 2) / 255 + 0.055) / 1.055 ≤ (u / 100) ^ ((1 : ℝ) / 2.4) := by
    rw [hexp, le_rpow_natDiv_iff hu0 hL0 5 12 (by norm_num)]
    exact hlo
  have hs_hi : (u / 100) ^ ((1 : ℝ) / 2.4) < (((k : ℝ) + 1 / 2) / 255 + 0.055) / 1.055 := by
    rw [hexp, rpow_natDiv_lt_iff hu0 hU0 5 12 (by norm_num)]
    exact hhi
  have hscale_lo : ((((k : ℝ) - 1 / 2) / 255 + 0.055) / 1.055) * 269.025 =
      (k : ℝ) - 1 / 2 + 14.025 := by ring
  have hscale_hi : ((((k : ℝ) + 1 / 2) / 255 + 0.055) / 1.055) * 269.025 =
      (k : ℝ) + 1 / 2 + 14.025 := by ring
  have hm_lo := mul_le_mul_of_nonneg_right hs_lo (show (0 : ℝ) ≤ 269.025 by norm_num)
  have hm_hi := mul_lt_mul_of_pos_right hs_hi (show (0 : ℝ) < 269.025 by norm_num)
  rw [hscale_lo] at hm_lo
  rw [hscale_hi] at hm_hi
  have hv_lo : (k : ℝ) - 1 / 2 ≤ (1.055 * (u / 100) ^ ((1 : ℝ) / 2.4) - 0.055) * 255 := by
    nlinarith [hm_lo]
  have hv_hi : (1.055 * (u / 100) ^ ((1 : ℝ) / 2.4) - 0.055) * 255 < (k : ℝ) + 1 / 2 := by
    nlinarith [hm_hi]
  have hv_nn : 0 ≤ (1.055 * (u / 100) ^ ((1 : ℝ) / 2.4) - 0.055) * 255 := by linarith
  rw [goRoundToInt_eq_coe k hv_nn hv_lo hv_hi]
  exact ClampInt_eq_self (by positivity) (by exact_mod_cast hk255)

/-- The red linear channel of the grayscale for `L* = 50` rounds to 119. -/
lemma delin_gray50_r :
    Delinearized ((359369990144192148682355487 : ℝ) / 19511200000000000000000000) = (119 : ℤ) :=
  Delinearized_eq_of_certs _ 119 (by norm_num) (by norm_num) (by norm_num)
    (by norm_num) (by norm_num)

/-- The green linear channel of the grayscale for `L* = 50` rounds to 119. -/
lemma delin_gray50_g :
    Delinearized ((359370003333442107281067441 : ℝ) / 19511200000000000000000000) = (119 : ℤ) :=
  Delinearized_eq_of_certs _ 119 (by norm_num) (by norm_num) (by norm_num)
    (by norm_num) (by norm_num)

/-- The blue linear channel of the grayscale for `L* = 50` rounds to 119. -/
lemma delin_gray50_b :
    Delinearized ((71873999200185513652564749 : ℝ) / 3902240000000000000000000) = (119 : ℤ) :=
  Delinearized_eq_of_certs _ 119 (by norm_num) (by norm_num) (by norm_num)
    (by norm_num) (by norm_num)

/-- C1 counterexample: at `(hue, chroma, tone) = (0, 0, 50)` the solver's
fast path returns the grayscale `ArgbFromLstar 50` (gray level 119), whose
realised L* differs from the requested tone 50 by more than `1e-6` (in fact
by more than `0.03`), because the returned color is quantised to 8-bit sRGB. -/
theorem solveToInt_tone_gap_at_50 :
    (1e-6 : ℝ) < |LstarFromArgb (solveToInt (fun _ _ _ => 0) 0 0 50) - 50| := by
  have hfast : solveToInt (fun _ _ _ => 0) 0 0 50 = ArgbFromLstar 50 := by
    simp only [solveToInt]
    rw [if_pos (Or.inl (by norm_num))]
  rw [hfast]
  have hcube : ((50 : ℝ) + 16) / 116 * (((50 : ℝ) + 16) / 116) * (((50 : ℝ) + 16) / 116) >
      216 / 24389 := by norm_num
  simp only [ArgbFromLstar]
  rw [if_pos (show (50 : ℝ) > 8 by norm_num), if_pos hcube]
  rw [show whitePointD65 0 = (95.047 : ℝ) from rfl,
    show whitePointD65 1 = (100.0 : ℝ) from rfl,
    show whitePointD65 2 = (108.883 : ℝ) from rfl]
  simp only [ArgbFromXyz]
  rw [show xyzToSrgb 0 0 = (3.2413774792388685 : ℝ) from rfl,
    show xyzToSrgb 0 1 = (-1.5376652402851851 : ℝ) from rfl,
    show xyzToSrgb 0 2 = (-0.49885366846268053 : ℝ) from rfl,
    show xyzToSrgb 1 0 = (-0.9691452513005321 : ℝ) from rfl,
    show xyzToSrgb 1 1 = (1.8758853451067872 : ℝ) from rfl,
    show xyzToSrgb 1 2 = (0.04156585616912061 : ℝ) from rfl,
    show xyzToSrgb 2 0 = (0.05562093689691305 : ℝ) from rfl,
    show xyzToSrgb 2 1 = (-0.20395524564742123 : ℝ) from rfl,
    show xyzToSrgb 2 2 = (1.0571799111220335 : ℝ) from rfl]
  norm_num
  rw [delin_gray50_r, delin_gray50_g, delin_gray50_b]
  have hx : XyzFromArgb (ArgbFromRgb 119 119 119) 1 =
      Linearized 119 * 0.2126 + Linearized 119 * 0.7152 + Linearized 119 * 0.0722 := by
    rw [XyzFromArgb_y]
    rw [show RedFromArgb (ArgbFromRgb 119 119 119) = 119 from by decide,
      show GreenFromArgb (ArgbFromRgb 119 119 119) = 119 from by decide,
      show BlueFromArgb (ArgbFromRgb 119 119 119) = 119 from by decide]
  simp only [LstarFromArgb]
  rw [hx]
  have hlin : Linearized 119 = ((313 : ℝ) / 633) ^ (2.4 : ℝ) * 100 := by
    unfold Linearized
    rw [if_neg (by norm_num)]
    rw [show (((119 : ℕ) : ℝ) / 255 + 0.055) / 1.055 = (313 : ℝ) / 633 from by norm_num]
  rw [hlin]
  have hyval : (((313 : ℝ) / 633) ^ (2.4 : ℝ) * 100 * 0.2126 +
      ((313 : ℝ) / 633) ^ (2.4 : ℝ) * 100 * 0.7152 +
      ((313 : ℝ) / 633) ^ (2.4 : ℝ) * 100 * 0.0722) / 100 =
      ((313 : ℝ) / 633) ^ (2.4 : ℝ) := by ring
  rw [hyval]
  have hB0 : (0 : ℝ) ≤ 313 / 633 := by norm_num
  have hbranch : ¬ (((313 : ℝ) / 633) ^ (2.4 : ℝ) ≤ 216 / 24389) := by
    push_neg
    rw [show (2.4 : ℝ) = ((12 : ℕ) : ℝ) / ((5 : ℕ) : ℝ) from by norm_num,
      lt_rpow_natDiv_iff hB0 (by norm_num) 12 5 (by norm_num)]
    norm_num
  rw [if_neg hbranch]
  have hpow : (((313 : ℝ) / 633) ^ (2.4 : ℝ)) ^ ((1 : ℝ) / 3) =
      ((313 : ℝ) / 633) ^ (((4 : ℕ) : ℝ) / ((5 : ℕ) : ℝ)) := by
    rw [← Real.rpow_mul hB0]
    norm_num
  rw [hpow]
  have hlb : (6603 : ℝ) / 100 / 116 < ((313 : ℝ) / 633) ^ (((4 : ℕ) : ℝ) / ((5 : ℕ) : ℝ)) := by
    rw [lt_rpow_natDiv_iff hB0 (by norm_num) 4 5 (by norm_num)]
    norm_num
  rw [abs_of_pos (by nlinarith [hlb])]
  nlinarith [hlb]

/-- C1 amended: on the spec's near-achromatic fast path the solver returns
the opaque grayscale `ArgbFromLstar(tone)`; the `≈1e-6` tone agreement holds
for the solver's real-valued intermediate, not for `LstarFromArgb` of the
returned 8-bit ARGB. -/
theorem solveToInt_fast_path (search : ℝ → ℝ → ℝ → ℕ) (hue chroma tone : ℝ)
    (h : chroma < 1e-6 ∨ tone ≤ 1e-6 ∨ tone ≥ 100 - 1e-6) :
    solveToInt search hue chroma tone = ArgbFromLstar tone ∧
      IsOpaque (solveToInt search hue chroma tone) = true := by
  have heq : solveToInt search hue chroma tone = ArgbFromLstar tone := by
    simp only [solveToInt]
    rw [if_pos h]
  refine ⟨heq, ?_⟩
  rw [heq]
  simp only [ArgbFromLstar, ArgbFromXyz]
  exact IsOpaque_ArgbFromRgb _ _ _

/-- Witness for the amended C1 at `(0, 0, 50)`. -/
theorem solveToInt_fast_path_witness :
    ((0 : ℝ) < 1e-6 ∨ (50 : ℝ) ≤ 1e-6 ∨ (50 : ℝ) ≥ 100 - 1e-6) ∧
      (solveToInt (fun _ _ _ => 0) 0 0 50 = ArgbFromLstar 50 ∧
        IsOpaque (solveToInt (fun _ _ _ => 0) 0 0 50) = true) :=
  ⟨Or.inl (by norm_num),
    solveToInt_fast_path (fun _ _ _ => 0) 0 0 50 (Or.inl (by norm_num))⟩

/-- Witness for C7: the first call on an empty cache computes, stores and
returns the solver value. -/
theorem tonalPalette_tone_cache_semantics_witness :
    (TonalPalette.Tone solveZero tpTest 7).1 = 42 ∧
      (TonalPalette.Tone solveZero tpTest 7).2.cache 7 = some 42 := by
  obtain ⟨hnone, -⟩ := tonalPalette_tone_cache_semantics solveZero tpTest 7
  obtain ⟨ha, hb⟩ := hnone rfl
  refine ⟨?_, ?_⟩
  · rw [ha]
    rfl
  · rw [hb, ha]
    rfl

/-- Witness for C10: `0xFF123456` and `0x00123456` agree on everything except
the stored ARGB word. -/
theorem cam16FromInt_ignores_alpha_witness :
    (0xFF123456 : ℕ) % 2 ^ 24 = (0x00123456 : ℕ) % 2 ^ 24 ∧
      (Cam16FromIntInViewingConditions 0xFF123456 DefaultViewingConditions =
        Cam16FromIntInViewingConditions 0x00123456 DefaultViewingConditions ∧
      (NewHctFromInt 0xFF123456).hue = (NewHctFromInt 0x00123456).hue ∧
      (NewHctFromInt 0xFF123456).chroma = (NewHctFromInt 0x00123456).chroma ∧
      (NewHctFromInt 0xFF123456).tone = (NewHctFromInt 0x00123456).tone ∧
      (NewHctFromInt 0xFF123456).ToInt = 0xFF123456) :=
  ⟨by norm_num,
    cam16FromInt_ignores_alpha 0xFF123456 0x00123456 DefaultViewingConditions (by norm_num)⟩

end
